import Mathlib

/-!
Verification of the pronunciation-scoring and adaptive-progression engine.

The definitions in the first part of this file are shallow embeddings of the
Python sources (`app/services/phoneme_service.py`, `app/services/stt_service.py`,
`app/services/progress_service.py`, `app/services/adaptive_engine.py` and the
`backend/app` variants).  Machine floats are modelled by `ℚ`; Python's
`round(x, 2)` is modelled by `round2`.  Definitions whose names end in `Spec`
are written from the specification's words and are compared with the embedded
code by the theorems.
-/

namespace LearningModule

/-- Python's `round` to the nearest integer (half-to-even, "banker's
rounding"), on exact rationals.  `f` is the floor of `x` and `r / d` its
fractional part; the fraction is compared with `1 / 2` by comparing `2 * r`
with `d`. -/
def pyRound (x : ℚ) : ℤ :=
  let d : ℤ := (x.den : ℤ)
  let f : ℤ := Int.fdiv x.num d
  let r : ℤ := x.num - f * d
  if d < 2 * r then f + 1
  else if 2 * r < d then f
  else if f % 2 = 0 then f else f + 1

/-- Model of Python's `round(x, 2)`: round to two decimal places. -/
def round2 (q : ℚ) : ℚ := (pyRound (q * 100) : ℚ) / 100

/-! ### AlignmentEngine: `compare_token_sequences` (phoneme_service.py, lines 151-219) -/

/-- Kind of an edit operation in an alignment, as produced by the backtrace. -/
inductive OpKind where
  | equal
  | substitution
  | deletion
  | insertion
deriving DecidableEq, Repr, BEq

instance : LawfulBEq OpKind :=
  ⟨by intro a b h; cases a <;> cases b <;> first | rfl | exact absurd h (by decide),
   by intro a; cases a <;> rfl⟩

/-- One alignment entry `(exp_t, spk_t, typ)`; the source uses the empty string
for an absent side, modelled here by `none`. -/
structure AlignOp (α : Type) where
  expTok : Option α
  spkTok : Option α
  kind : OpKind
deriving DecidableEq, Repr, BEq

/-- `match_score = 2` (phoneme_service.py line 158). -/
def match_score : Int := 2

/-- `sub_score = -1` (phoneme_service.py line 159). -/
def sub_score : Int := -1

/-- `gap_score = -1` (phoneme_service.py line 160). -/
def gap_score : Int := -1

variable {α : Type} [DecidableEq α] [Inhabited α]

/-- Row 0 of the DP table (lines 168-169): `dp[0][j] = dp[0][j-1] + gap_score`. -/
def dpRow0 : Nat → Int
  | 0 => 0
  | j + 1 => dpRow0 j + gap_score

/-- Row `i+1` of the DP table given row `i` (`prev`) and the expected token
`eTok = expected[i]` (lines 165-184): cell 0 is `prev 0 + gap_score`, the inner
cell is `max(score_diag, score_up, score_left)`. -/
def dpRow (eTok : α) (s : List α) (prev : Nat → Int) : Nat → Int
  | 0 => prev 0 + gap_score
  | j + 1 =>
    let score_diag := prev j + (if eTok = s.getD j default then match_score else sub_score)
    let score_up := prev (j + 1) + gap_score
    let score_left := dpRow eTok s prev j + gap_score
    max (max score_diag score_up) score_left

/-- The DP table of `compare_token_sequences` (lines 162-184), filled row by
row exactly as the source's loops do: `dp e s i j` is the value the filled
table holds at `dp[i][j]`. -/
def dp (e s : List α) : Nat → Nat → Int
  | 0 => dpRow0
  | i + 1 => dpRow (e.getD i default) s (dp e s i)

/-- Direction recorded in the `ptr` table. -/
inductive Dir where
  | diag
  | up
  | left
deriving DecidableEq, Repr

/-- The `ptr` table of `compare_token_sequences` (lines 163-184): `none` at the
origin (where the backtrace stops), `up` along column 0, `left` along row 0, and
in the interior the first of diag/up/left achieving the maximum (the source's
`if best == score_diag / elif best == score_up / else` chain). -/
def ptrDir (e s : List α) : Nat → Nat → Option Dir
  | 0, 0 => none
  | _ + 1, 0 => some .up
  | 0, _ + 1 => some .left
  | i + 1, j + 1 =>
    let score_diag := dp e s i j +
      (if e.getD i default = s.getD j default then match_score else sub_score)
    let score_up := dp e s i (j + 1) + gap_score
    let score_left := dp e s (i + 1) j + gap_score
    let best := max (max score_diag score_up) score_left
    some (if best = score_diag then .diag else if best = score_up then .up else .left)

/-- Backtrace worker (lines 186-217).  Each loop iteration strictly decreases
`i + j`, so the structural `fuel` argument (instantiated with `i + j` in
`backtrace`) never runs out; the `fuel = 0` branch is unreachable from
`backtrace`.  The result is already in left-to-right order (the source builds
the path back-to-front and then reverses; this recursion appends the op of
cell `(i, j)` after the ops of the remaining backtrace). -/
def backtraceAux (e s : List α) : Nat → Nat → Nat → List (AlignOp α)
  | 0, _, _ => []
  | _ + 1, 0, 0 => []
  | fuel + 1, i + 1, 0 => backtraceAux e s fuel i 0 ++ [⟨some (e.getD i default), none, .deletion⟩]
  | fuel + 1, 0, j + 1 => backtraceAux e s fuel 0 j ++ [⟨none, some (s.getD j default), .insertion⟩]
  | fuel + 1, i + 1, j + 1 =>
    let score_diag := dp e s i j +
      (if e.getD i default = s.getD j default then match_score else sub_score)
    let score_up := dp e s i (j + 1) + gap_score
    let score_left := dp e s (i + 1) j + gap_score
    let best := max (max score_diag score_up) score_left
    if best = score_diag then
      backtraceAux e s fuel i j ++
        [⟨some (e.getD i default), some (s.getD j default),
          if e.getD i default = s.getD j default then .equal else .substitution⟩]
    else if best = score_up then
      backtraceAux e s fuel i (j + 1) ++ [⟨some (e.getD i default), none, .deletion⟩]
    else
      backtraceAux e s fuel (i + 1) j ++ [⟨none, some (s.getD j default), .insertion⟩]

/-- The backtraced alignment from cell `(i, j)`, in left-to-right order. -/
def backtrace (e s : List α) (i j : Nat) : List (AlignOp α) :=
  backtraceAux e s (i + j) i j

/-! Reference Needleman–Wunsch definitions, written from the specification's
words (spec §4.1): `dp[i][0] = i * gapScore`, `dp[0][j] = j * gapScore`, the
interior recurrence is the maximum of the diagonal, vertical and horizontal
branches, ties prefer diagonal over vertical (deletion) over horizontal
(insertion), and the backtrace runs from `dp[n][m]` to `dp[0][0]` and is
reversed to left-to-right order. -/

/-- Spec constant `matchScore = +2`. -/
def nwMatchScore : Int := 2

/-- Spec constant `subScore = -1`. -/
def nwSubScore : Int := -1

/-- Spec constant `gapScore = -1`. -/
def nwGapScore : Int := -1

/-- The spec's score matrix: `dp[i][0] = i * gapScore`, `dp[0][j] = j * gapScore`,
`dp[i][j] = max(diagonal, vertical, horizontal)`. -/
def nwDp (e s : List α) : Nat → Nat → Int
  | i, 0 => (i : Int) * nwGapScore
  | 0, j => (j : Int) * nwGapScore
  | i + 1, j + 1 =>
    max (max
      (nwDp e s i j + (if e.getD i default = s.getD j default then nwMatchScore else nwSubScore))
      (nwDp e s i (j + 1) + nwGapScore))
      (nwDp e s (i + 1) j + nwGapScore)
termination_by i j => (i, j)

/-- The spec's backtrace from cell `(i, j)` to `(0, 0)`, in left-to-right
order: along the borders only deletions (column 0) or insertions (row 0) are
possible; in the interior the branch achieving `dp[i][j]` is followed,
preferring diagonal over vertical (deletion) over horizontal (insertion). -/
def nwBacktrace (e s : List α) : Nat → Nat → List (AlignOp α)
  | 0, 0 => []
  | i + 1, 0 => nwBacktrace e s i 0 ++ [⟨some (e.getD i default), none, .deletion⟩]
  | 0, j + 1 => nwBacktrace e s 0 j ++ [⟨none, some (s.getD j default), .insertion⟩]
  | i + 1, j + 1 =>
    let best := nwDp e s (i + 1) (j + 1)
    if nwDp e s i j + (if e.getD i default = s.getD j default then nwMatchScore else nwSubScore)
        = best then
      nwBacktrace e s i j ++
        [⟨some (e.getD i default), some (s.getD j default),
          if e.getD i default = s.getD j default then .equal else .substitution⟩]
    else if nwDp e s i (j + 1) + nwGapScore = best then
      nwBacktrace e s i (j + 1) ++ [⟨some (e.getD i default), none, .deletion⟩]
    else
      nwBacktrace e s (i + 1) j ++ [⟨none, some (s.getD j default), .insertion⟩]
termination_by i j => (i, j)

/-- Result of `compare_token_sequences`: the alignment list and `phoneme_score`. -/
structure AlignmentResult (α : Type) where
  alignment : List (AlignOp α)
  phoneme_score : ℚ
deriving DecidableEq, Repr

/-- `compare_token_sequences(expected, spoken)` (lines 151-219): backtrace from
`(n, m)`, count `matches` (ops of kind `equal`) and `total` (all ops), and score
`round((matches / total) * 100, 2)` when `total > 0`, else `0.0`. -/
def compare_token_sequences (e s : List α) : AlignmentResult α :=
  let a := backtrace e s e.length s.length
  let matchCount := a.countP (fun op => op.kind == .equal)
  let total := a.length
  { alignment := a
    phoneme_score := if 0 < total then round2 ((matchCount : ℚ) / (total : ℚ) * 100) else 0 }

/-- The spec's `align(expected, observed)` (spec §4.1): backtrace from
`dp[n][m]`, `phonemeScore = round(matches / totalAlignedOps * 100, 2)` where
`matches` counts only `Equal` ops, and `0.0` when the backtraced path is empty
(both sequences empty). -/
def alignSpec (e s : List α) : AlignmentResult α :=
  let path := nwBacktrace e s e.length s.length
  { alignment := path
    phoneme_score :=
      if path = [] then 0
      else round2 ((path.countP (fun op => op.kind == .equal) : ℚ) / (path.length : ℚ) * 100) }

/-! ### Equality of the embedded aligner with its Needleman–Wunsch reference -/

theorem dpRow0_eq (j : Nat) : dpRow0 j = (j : Int) * nwGapScore := by
  induction j with
  | zero => simp [dpRow0]
  | succ j ih =>
    simp only [dpRow0, ih, nwGapScore, gap_score]
    push_cast
    ring

theorem dp_col0 (e s : List α) (i : Nat) : dp e s i 0 = (i : Int) * nwGapScore := by
  induction i with
  | zero => simp [dp, dpRow0]
  | succ i ih =>
    simp only [dp, dpRow, ih, nwGapScore, gap_score]
    push_cast
    ring

theorem dp_eq_nwDp (e s : List α) : ∀ i j, dp e s i j = nwDp e s i j := by
  intro i
  induction i with
  | zero =>
    intro j
    cases j with
    | zero => simp [dp, dpRow0, nwDp]
    | succ j =>
      show dpRow0 (j + 1) = nwDp e s 0 (j + 1)
      rw [dpRow0_eq, nwDp]
      simp
  | succ i ih =>
    intro j
    induction j with
    | zero =>
      show dpRow (e.getD i default) s (dp e s i) 0 = nwDp e s (i + 1) 0
      rw [show nwDp e s (i + 1) 0 = ((i + 1 : Nat) : Int) * nwGapScore from by rw [nwDp]]
      simp only [dpRow, ih 0]
      rw [show nwDp e s i 0 = (i : Int) * nwGapScore from by rw [nwDp]]
      simp only [nwGapScore, gap_score]
      push_cast
      ring
    | succ j jh =>
      show dpRow (e.getD i default) s (dp e s i) (j + 1) = nwDp e s (i + 1) (j + 1)
      rw [show nwDp e s (i + 1) (j + 1) =
          max (max
            (nwDp e s i j +
              (if e.getD i default = s.getD j default then nwMatchScore else nwSubScore))
            (nwDp e s i (j + 1) + nwGapScore))
            (nwDp e s (i + 1) j + nwGapScore) from by rw [nwDp]]
      simp only [dpRow, ih j, ih (j + 1)]
      have hz : dpRow (e.getD i default) s (dp e s i) j = nwDp e s (i + 1) j := jh
      rw [hz]
      rfl

theorem backtraceAux_fuel (e s : List α) :
    ∀ f i j, i + j ≤ f → backtraceAux e s f i j = backtraceAux e s (i + j) i j := by
  intro f
  induction f using Nat.strong_induction_on with
  | _ f ih =>
    intro i j h
    cases i with
    | zero =>
      cases j with
      | zero => cases f <;> rfl
      | succ j =>
        obtain ⟨f', rfl⟩ : ∃ f', f = f' + 1 := ⟨f - 1, by omega⟩
        have h0 : (0 : Nat) + (j + 1) = (0 + j) + 1 := by omega
        rw [h0]
        simp only [backtraceAux]
        rw [ih f' (by omega) 0 j (by omega), ih (0 + j) (by omega) 0 j (by omega)]
    | succ i =>
      cases j with
      | zero =>
        obtain ⟨f', rfl⟩ : ∃ f', f = f' + 1 := ⟨f - 1, by omega⟩
        have h0 : (i + 1) + 0 = i + 1 := by omega
        rw [h0]
        simp only [backtraceAux]
        rw [ih f' (by omega) i 0 (by omega), ih i (by omega) i 0 (by omega)]
      | succ j =>
        obtain ⟨f', rfl⟩ : ∃ f', f = f' + 1 := ⟨f - 1, by omega⟩
        have h0 : (i + 1) + (j + 1) = (i + j + 1) + 1 := by omega
        rw [h0]
        simp only [backtraceAux]
        rw [ih f' (by omega) i j (by omega), ih (i + j + 1) (by omega) i j (by omega),
          ih f' (by omega) i (j + 1) (by omega), ih (i + j + 1) (by omega) i (j + 1) (by omega),
          ih f' (by omega) (i + 1) j (by omega), ih (i + j + 1) (by omega) (i + 1) j (by omega)]

theorem backtrace_zero_zero (e s : List α) : backtrace e s 0 0 = [] := rfl

theorem backtrace_succ_zero (e s : List α) (i : Nat) :
    backtrace e s (i + 1) 0 =
      backtrace e s i 0 ++ [⟨some (e.getD i default), none, .deletion⟩] := by
  show backtraceAux e s ((i + 1) + 0) (i + 1) 0 = _
  rw [show (i + 1) + 0 = i + 1 from rfl]
  simp only [backtraceAux]
  rw [backtraceAux_fuel e s i i 0 (by omega)]
  rfl

theorem backtrace_zero_succ (e s : List α) (j : Nat) :
    backtrace e s 0 (j + 1) =
      backtrace e s 0 j ++ [⟨none, some (s.getD j default), .insertion⟩] := by
  show backtraceAux e s (0 + (j + 1)) 0 (j + 1) = _
  rw [show (0 : Nat) + (j + 1) = (0 + j) + 1 by omega]
  simp only [backtraceAux]
  rfl

theorem backtrace_succ_succ (e s : List α) (i j : Nat) :
    backtrace e s (i + 1) (j + 1) =
      (let score_diag := dp e s i j +
        (if e.getD i default = s.getD j default then match_score else sub_score)
      let score_up := dp e s i (j + 1) + gap_score
      let score_left := dp e s (i + 1) j + gap_score
      let best := max (max score_diag score_up) score_left
      if best = score_diag then
        backtrace e s i j ++
          [⟨some (e.getD i default), some (s.getD j default),
            if e.getD i default = s.getD j default then .equal else .substitution⟩]
      else if best = score_up then
        backtrace e s i (j + 1) ++ [⟨some (e.getD i default), none, .deletion⟩]
      else
        backtrace e s (i + 1) j ++ [⟨none, some (s.getD j default), .insertion⟩]) := by
  show backtraceAux e s ((i + 1) + (j + 1)) (i + 1) (j + 1) = _
  rw [show (i + 1) + (j + 1) = (i + j + 1) + 1 by omega]
  simp only [backtraceAux]
  rw [backtraceAux_fuel e s (i + j + 1) i j (by omega),
    backtraceAux_fuel e s (i + j + 1) i (j + 1) (by omega),
    backtraceAux_fuel e s (i + j + 1) (i + 1) j (by omega)]
  rfl

theorem if_eq_symm_if {β : Type} (x y : Int) (A B A' B' : β)
    (hA : A = A') (hB : B = B') :
    (if x = y then A else B) = (if y = x then A' else B') := by
  by_cases h : x = y
  · rw [if_pos h, if_pos h.symm, hA]
  · rw [if_neg h, if_neg (fun hh => h hh.symm), hB]

theorem backtrace_eq_nw (e s : List α) :
    ∀ n i j, i + j = n → backtrace e s i j = nwBacktrace e s i j := by
  intro n
  induction n using Nat.strong_induction_on with
  | _ n ih =>
    intro i j hn
    cases i with
    | zero =>
      cases j with
      | zero =>
        rw [backtrace_zero_zero, nwBacktrace]
      | succ j =>
        rw [backtrace_zero_succ, nwBacktrace, ih (0 + j) (by omega) 0 j rfl]
    | succ i =>
      cases j with
      | zero =>
        rw [backtrace_succ_zero, nwBacktrace, ih (i + 0) (by omega) i 0 rfl]
      | succ j =>
        rw [backtrace_succ_succ]
        have hsym : ∀ a b : Nat, nwDp e s a b = dp e s a b :=
          fun a b => (dp_eq_nwDp e s a b).symm
        rw [nwBacktrace]
        simp only [hsym, show nwMatchScore = match_score from rfl,
          show nwSubScore = sub_score from rfl, show nwGapScore = gap_score from rfl]
        have hB : dp e s (i + 1) (j + 1) =
            max (max
              (dp e s i j +
                (if e.getD i default = s.getD j default then match_score else sub_score))
              (dp e s i (j + 1) + gap_score)) (dp e s (i + 1) j + gap_score) := rfl
        rw [hB]
        exact if_eq_symm_if _ _ _ _ _ _
          (by rw [ih (i + j) (by omega) i j rfl])
          (if_eq_symm_if _ _ _ _ _ _
            (by rw [ih (i + (j + 1)) (by omega) i (j + 1) rfl])
            (by rw [ih ((i + 1) + j) (by omega) (i + 1) j rfl]))

theorem backtrace_row0_all_ins (e s : List α) :
    ∀ j, ((backtrace e s 0 j).all fun op => op.kind == OpKind.insertion) = true := by
  intro j
  induction j with
  | zero => rfl
  | succ j ih => rw [backtrace_zero_succ]; simp_all

theorem backtrace_col0_all_del (e s : List α) :
    ∀ i, ((backtrace e s i 0).all fun op => op.kind == OpKind.deletion) = true := by
  intro i
  induction i with
  | zero => rfl
  | succ i ih => rw [backtrace_succ_zero]; simp_all

theorem round2_zero : round2 0 = 0 := by with_unfolding_all decide

theorem phoneme_score_zero_of_no_equal (e s : List α)
    (h : ((compare_token_sequences e s).alignment.countP fun op => op.kind == OpKind.equal) = 0) :
    (compare_token_sequences e s).phoneme_score = 0 := by
  unfold compare_token_sequences at *
  dsimp only at h ⊢
  rw [h]
  by_cases hl : 0 < (backtrace e s e.length s.length).length
  · rw [if_pos hl]
    norm_num [round2_zero]
  · rw [if_neg hl]

omit [DecidableEq α] [Inhabited α] in
theorem all_no_equal {l : List (AlignOp α)} {k : OpKind} (hk : k ≠ OpKind.equal)
    (h : (l.all fun op => op.kind == k) = true) :
    (l.countP fun op => op.kind == OpKind.equal) = 0 := by
  induction l with
  | nil => rfl
  | cons a l ih =>
    simp only [List.all_cons, Bool.and_eq_true, beq_iff_eq] at h
    rw [List.countP_cons, ih h.2]
    simp [h.1, beq_iff_eq, hk]

/-- C1: `compare_token_sequences` equals the reference Needleman–Wunsch
definition written from the spec (same table `dp[i][0] = i*gapScore`,
`dp[0][j] = j*gapScore`, interior maximum with matchScore `+2`, subScore `-1`,
gapScore `-1`, ties preferring diagonal over vertical over horizontal, backtrace
from `dp[n][m]` reversed to left-to-right order, and
`phonemeScore = round(matches/totalAlignedOps*100, 2)` with `0.0` on the empty
path); moreover the score is `0.0` when both inputs are empty, and when exactly
one side is empty the call yields an alignment that is entirely insertions
(resp. deletions) with score `0.0`. -/
theorem C1_align_matches_nw_reference (e s : List α) :
    compare_token_sequences e s = alignSpec e s
    ∧ (compare_token_sequences ([] : List α) ([] : List α)).phoneme_score = 0
    ∧ ((compare_token_sequences ([] : List α) s).alignment.all
        fun op => op.kind == OpKind.insertion) = true
    ∧ (compare_token_sequences ([] : List α) s).phoneme_score = 0
    ∧ ((compare_token_sequences e ([] : List α)).alignment.all
        fun op => op.kind == OpKind.deletion) = true
    ∧ (compare_token_sequences e ([] : List α)).phoneme_score = 0 := by
  refine ⟨?_, by rfl, ?_, ?_, ?_, ?_⟩
  · have hb := backtrace_eq_nw e s (e.length + s.length) e.length s.length rfl
    unfold compare_token_sequences alignSpec
    dsimp only
    rw [hb]
    congr 1
    by_cases hp : nwBacktrace e s e.length s.length = []
    · rw [hp]
      rfl
    · rw [if_pos (List.length_pos.mpr hp), if_neg hp]
  · exact backtrace_row0_all_ins [] s s.length
  · exact phoneme_score_zero_of_no_equal [] s
      (all_no_equal (by simp) (backtrace_row0_all_ins [] s s.length))
  · exact backtrace_col0_all_del e [] e.length
  · exact phoneme_score_zero_of_no_equal e []
      (all_no_equal (by simp) (backtrace_col0_all_del e [] e.length))

omit [DecidableEq α] [Inhabited α] in
theorem countP_snoc_true {l : List (AlignOp α)} {p : AlignOp α → Bool} {a : AlignOp α}
    (ha : p a = true) : (l ++ [a]).countP p = l.countP p + 1 := by
  rw [List.countP_append]
  simp [List.countP_cons, ha]

omit [DecidableEq α] [Inhabited α] in
theorem countP_snoc_false {l : List (AlignOp α)} {p : AlignOp α → Bool} {a : AlignOp α}
    (ha : p a = false) : (l ++ [a]).countP p = l.countP p := by
  rw [List.countP_append]
  simp [List.countP_cons, ha]

theorem backtrace_counts (e s : List α) :
    ∀ n i j, i + j = n →
      ((backtrace e s i j).countP fun op => !(op.kind == OpKind.insertion)) = i
      ∧ ((backtrace e s i j).countP fun op => !(op.kind == OpKind.deletion)) = j := by
  intro n
  induction n using Nat.strong_induction_on with
  | _ n ih =>
    intro i j hn
    cases i with
    | zero =>
      cases j with
      | zero => exact ⟨rfl, rfl⟩
      | succ j =>
        obtain ⟨h1, h2⟩ := ih (0 + j) (by omega) 0 j rfl
        rw [backtrace_zero_succ]
        constructor
        · rw [List.countP_append, h1]
          simp
        · rw [List.countP_append, h2]
          simp
    | succ i =>
      cases j with
      | zero =>
        obtain ⟨h1, h2⟩ := ih (i + 0) (by omega) i 0 rfl
        rw [backtrace_succ_zero]
        constructor
        · rw [List.countP_append, h1]
          simp
        · rw [List.countP_append, h2]
          simp
      | succ j =>
        obtain ⟨d1, d2⟩ := ih (i + j) (by omega) i j rfl
        obtain ⟨u1, u2⟩ := ih (i + (j + 1)) (by omega) i (j + 1) rfl
        obtain ⟨l1, l2⟩ := ih ((i + 1) + j) (by omega) (i + 1) j rfl
        constructor
        · rw [backtrace_succ_succ]
          dsimp only
          split <;>
            (split
             · rw [countP_snoc_true rfl, d1]
             · split
               · rw [countP_snoc_true rfl, u1]
               · rw [countP_snoc_false rfl, l1])
        · rw [backtrace_succ_succ]
          dsimp only
          split <;>
            (split
             · rw [countP_snoc_true rfl, d2]
             · split
               · rw [countP_snoc_false rfl, u2]
               · rw [countP_snoc_true rfl, l2])

/-- C7: in every alignment produced by `compare_token_sequences`, the number of
non-insertion ops equals the length of the expected sequence and the number of
non-deletion ops equals the length of the observed sequence. -/
theorem C7_alignment_length_invariant (e s : List α) :
    (((compare_token_sequences e s).alignment.countP
        fun op => !(op.kind == OpKind.insertion)) = e.length)
    ∧ (((compare_token_sequences e s).alignment.countP
        fun op => !(op.kind == OpKind.deletion)) = s.length) :=
  backtrace_counts e s (e.length + s.length) e.length s.length rfl

/-- C5 counterexample: the number of `Equal` ops in the traced alignment is
not symmetric under exchanging the two argument sequences.  For
`A = [0,0,0,0,1,2]` and `B = [1,2,2,2,1]`, `align(A, B)` reports one `Equal`
op while `align(B, A)` reports two. -/
theorem C5_counterexample :
    ¬ (((compare_token_sequences ([0, 0, 0, 0, 1, 2] : List Nat) [1, 2, 2, 2, 1]).alignment.countP
          fun op => op.kind == OpKind.equal)
        = ((compare_token_sequences ([1, 2, 2, 2, 1] : List Nat) [0, 0, 0, 0, 1, 2]).alignment.countP
          fun op => op.kind == OpKind.equal)) := by
  decide

/-- C5 amended: what is symmetric under exchanging the two sequences is the
alignment score matrix itself: `dp` of `align(A, B)` at `(i, j)` equals `dp`
of `align(B, A)` at `(j, i)` for all cells; the number of reported `Equal`
ops, by contrast, can differ between `align(A, B)` and `align(B, A)`. -/
theorem C5_amended_dp_symmetric (A B : List α) : ∀ i j, dp A B i j = dp B A j i := by
  intro i
  induction i with
  | zero =>
    intro j
    show dpRow0 j = dp B A j 0
    rw [dpRow0_eq, dp_col0]
  | succ i ih =>
    intro j
    induction j with
    | zero =>
      show dpRow (A.getD i default) B (dp A B i) 0 = dp B A 0 (i + 1)
      show dp A B i 0 + gap_score = dpRow0 (i + 1)
      rw [dp_col0, dpRow0_eq]
      simp only [nwGapScore, gap_score]
      push_cast
      ring
    | succ j jh =>
      show dpRow (A.getD i default) B (dp A B i) (j + 1)
          = dpRow (B.getD j default) A (dp B A j) (i + 1)
      show max (max
          (dp A B i j + (if A.getD i default = B.getD j default then match_score else sub_score))
          (dp A B i (j + 1) + gap_score)) (dp A B (i + 1) j + gap_score)
        = max (max
          (dp B A j i + (if B.getD j default = A.getD i default then match_score else sub_score))
          (dp B A j (i + 1) + gap_score)) (dp B A (j + 1) i + gap_score)
      have hl : dp A B (i + 1) j = dp B A j (i + 1) := jh
      rw [ih j, ih (j + 1), hl]
      by_cases htok : A.getD i default = B.getD j default
      · simp only [if_pos htok, if_pos htok.symm]
        rw [max_assoc, max_comm (dp B A (j + 1) i + gap_score) (dp B A j (i + 1) + gap_score),
          ← max_assoc]
      · have htok2 : ¬ B.getD j default = A.getD i default := fun hh => htok hh.symm
        simp only [if_neg htok, if_neg htok2]
        rw [max_assoc, max_comm (dp B A (j + 1) i + gap_score) (dp B A j (i + 1) + gap_score),
          ← max_assoc]

/-! ### ProgressTracker: `record_attempt` (app/services/progress_service.py
lines 26-84; the backend variant, backend/app/services/progress_service.py
lines 24-77, performs the identical update). -/

/-- A `UserProgress` row.  `mastered` is stored as the strings `"yes"`/`"no"`
exactly as in the source; scores and times are modelled by `ℚ`.
`last_attempt` (a wall-clock timestamp) is outside the model. -/
structure ProgressRecord where
  score : ℚ
  attempts : Nat
  mastered : String
  total_time : ℚ
  moving_avg_score : ℚ
  streak_score : Int
  penalty_score : ℚ
deriving DecidableEq, Repr

/-- `MASTER_THRESHOLD = 80` (progress_service.py line 20). -/
def MASTER_THRESHOLD : ℚ := 80

/-- The pure state transition `record_attempt` performs on the progress row of
one `(user, word)` key (progress_service.py lines 43-79): update the existing
row, or create a fresh one when the user has never attempted the word. -/
def record_attempt (existing : Option ProgressRecord) (score time_spent : ℚ) :
    ProgressRecord :=
  match existing with
  | some progress =>
    { streak_score :=
        if score > progress.score then progress.streak_score + 1
        else if score < progress.score then progress.streak_score - 1
        else progress.streak_score
      moving_avg_score := round2 ((progress.moving_avg_score + score) / 2)
      penalty_score :=
        if score < 60 then progress.penalty_score + 0.5
        else max 0 (progress.penalty_score - 0.2)
      attempts := progress.attempts + 1
      score := score
      mastered := if score >= MASTER_THRESHOLD then "yes" else "no"
      total_time := progress.total_time + time_spent }
  | none =>
    { score := score
      attempts := 1
      mastered := if score >= MASTER_THRESHOLD then "yes" else "no"
      total_time := time_spent
      moving_avg_score := score
      streak_score := 0
      penalty_score := if score >= 60 then 0 else 0.5 }

/-- The spec's `ProgressRecord` (spec §3): same fields with `mastered` a bool. -/
structure ProgressRecordSpec where
  score : ℚ
  attempts : Nat
  mastered : Bool
  movingAvgScore : ℚ
  streakScore : Int
  penaltyScore : ℚ
  totalTime : ℚ
deriving DecidableEq, Repr

/-- The spec's transition function `recordAttempt(existing, score, timeSpent,
masteryThreshold)` (spec §4.3), written from the specification's words. -/
def recordAttemptSpec (existing : Option ProgressRecordSpec)
    (score timeSpent masteryThreshold : ℚ) : ProgressRecordSpec :=
  match existing with
  | none =>
    { attempts := 1
      score := score
      movingAvgScore := score
      streakScore := 0
      penaltyScore := if score >= 60 then 0 else 0.5
      mastered := decide (score >= masteryThreshold)
      totalTime := timeSpent }
  | some ex =>
    { streakScore :=
        if ex.score < score then ex.streakScore + 1
        else if score < ex.score then ex.streakScore - 1
        else ex.streakScore
      movingAvgScore := round2 ((ex.movingAvgScore + score) / 2)
      penaltyScore :=
        if score < 60 then ex.penaltyScore + 0.5
        else max 0 (ex.penaltyScore - 0.2)
      attempts := ex.attempts + 1
      score := score
      mastered := decide (score >= masteryThreshold)
      totalTime := ex.totalTime + timeSpent }

/-- View of a stored row as a spec record (`"yes"`/`"no"` becomes a bool). -/
def toSpec (r : ProgressRecord) : ProgressRecordSpec :=
  { score := r.score
    attempts := r.attempts
    mastered := r.mastered == "yes"
    movingAvgScore := r.moving_avg_score
    streakScore := r.streak_score
    penaltyScore := r.penalty_score
    totalTime := r.total_time }

/-- C2: the `record_attempt` transition matches the spec state machine exactly
(with the mastery threshold instantiated at the source constant 80): creation
sets `attempts = 1`, `movingAvgScore = score`, `streakScore = 0`,
`penaltyScore = 0` iff `score >= 60` else `0.5`; an update moves the streak by
comparing with the previous score, halves the moving average towards the new
score with 2-decimal rounding, accumulates or decays the penalty, increments
`attempts`, overwrites `score`, recomputes `mastered`, and accumulates time. -/
theorem C2_record_attempt_matches_spec (existing : Option ProgressRecord)
    (score t : ℚ) :
    toSpec (record_attempt existing score t)
      = recordAttemptSpec (existing.map toSpec) score t MASTER_THRESHOLD := by
  by_cases hm : score >= MASTER_THRESHOLD
  · cases existing <;>
      simp [record_attempt, recordAttemptSpec, toSpec, Option.map, hm]
  · cases existing <;>
      simp [record_attempt, recordAttemptSpec, toSpec, Option.map, hm]

/-- A closed instance of `C2_record_attempt_matches_spec`. -/
theorem C2_witness :
    toSpec (record_attempt none 90 5)
      = recordAttemptSpec none 90 5 MASTER_THRESHOLD :=
  C2_record_attempt_matches_spec none 90 5

/-- Folding a whole history of attempts for one `(user, word)` key, starting
from no record: each attempt feeds the state through `record_attempt`. -/
def runAttempts (l : List (ℚ × ℚ)) : Option ProgressRecord :=
  l.foldl (fun st p => some (record_attempt st p.1 p.2)) none

theorem record_attempt_penalty_nonneg (st : Option ProgressRecord) (sc t : ℚ)
    (h : ∀ r, st = some r → 0 ≤ r.penalty_score) :
    0 ≤ (record_attempt st sc t).penalty_score := by
  cases st with
  | none =>
    simp only [record_attempt]
    split <;> norm_num
  | some r =>
    have hr := h r rfl
    simp only [record_attempt]
    split
    · linarith
    · exact le_max_left 0 _

theorem runAttempts_penalty_nonneg :
    ∀ (l : List (ℚ × ℚ)) (st : Option ProgressRecord),
      (∀ r, st = some r → 0 ≤ r.penalty_score) →
      ∀ r, l.foldl (fun st p => some (record_attempt st p.1 p.2)) st = some r →
        0 ≤ r.penalty_score := by
  intro l
  induction l with
  | nil =>
    intro st hst r hr
    exact hst r hr
  | cons p l ih =>
    intro st hst r hr
    exact ih (some (record_attempt st p.1 p.2))
      (by rintro r' ⟨rfl⟩; exact record_attempt_penalty_nonneg st p.1 p.2 hst) r hr

theorem high_scores_fold_penalty (l : List (ℚ × ℚ)) :
    ∀ r : ProgressRecord, 0 ≤ r.penalty_score → (∀ p ∈ l, 60 ≤ p.1) →
      (l.foldl (fun st p => record_attempt (some st) p.1 p.2) r).penalty_score
        = max 0 (r.penalty_score - (l.length : ℚ) * 0.2) := by
  induction l with
  | nil =>
    intro r hr _
    simp [max_eq_right hr]
  | cons p l ih =>
    intro r hr hall
    have hp : 60 ≤ p.1 := hall p (List.mem_cons_self p l)
    have hstep : (record_attempt (some r) p.1 p.2).penalty_score
        = max 0 (r.penalty_score - 0.2) := by
      simp only [record_attempt]
      rw [if_neg (by linarith)]
    rw [List.foldl_cons,
      ih (record_attempt (some r) p.1 p.2) (by rw [hstep]; exact le_max_left 0 _)
        (fun q hq => hall q (List.mem_cons_of_mem p hq)),
      hstep]
    rcases le_total (r.penalty_score - 0.2) 0 with hle | hle
    · have hc : (0 : ℚ) ≤ (l.length : ℚ) := Nat.cast_nonneg _
      rw [max_eq_left hle, max_eq_left (by linarith),
        max_eq_left (by rw [List.length_cons]; push_cast; linarith)]
    · rw [max_eq_right hle]
      congr 1
      push_cast [List.length_cons]
      ring

/-- C6: starting from a fresh `(user, word)` state, `penalty_score` is
non-negative after every sequence of `record_attempt` operations (creation sets
it to `0` or `0.5`, a low-score update adds `0.5`, a high-score update takes
`max(0, penalty - 0.2)`), and enough consecutive high scores (`>= 60`) drive it
to exactly `0`: after any run of at least `5 * penalty` high-score attempts the
penalty is exactly `0`, never below. -/
theorem C6_penalty_invariant :
    (∀ (l : List (ℚ × ℚ)) (r : ProgressRecord),
      runAttempts l = some r → 0 ≤ r.penalty_score)
    ∧ (∀ (r : ProgressRecord) (l : List (ℚ × ℚ)),
        0 ≤ r.penalty_score → (∀ p ∈ l, 60 ≤ p.1) →
        r.penalty_score * 5 ≤ (l.length : ℚ) →
        (l.foldl (fun st p => record_attempt (some st) p.1 p.2) r).penalty_score = 0) := by
  constructor
  · intro l r hr
    exact runAttempts_penalty_nonneg l none (by rintro r' ⟨⟩) r hr
  · intro r l hr hall hlen
    rw [high_scores_fold_penalty l r hr hall]
    exact max_eq_left (by linarith)

/-- A closed instance of `C6_penalty_invariant`: the attempt history
`50 then 90` keeps the penalty non-negative, and a penalty of `0.5` is driven
to exactly `0` by three high-score attempts. -/
theorem C6_witness :
    0 ≤ (record_attempt (some (record_attempt none 50 1)) 90 2).penalty_score
    ∧ (([((60 : ℚ), (0 : ℚ)), (70, 0), (80, 0)].foldl
        (fun st p => record_attempt (some st) p.1 p.2)
        ⟨50, 1, "no", 0, 50, 0, 0.5⟩).penalty_score = 0) :=
  ⟨C6_penalty_invariant.1 [(50, 1), (90, 2)] _ rfl,
   C6_penalty_invariant.2 ⟨50, 1, "no", 0, 50, 0, 0.5⟩ [(60, 0), (70, 0), (80, 0)]
     (by norm_num) (by intro p hp; fin_cases hp <;> norm_num) (by norm_num)⟩

/-! ### Data model for the curriculum store (app/models): `Word`, `Level`,
`LevelWord` rows, the `UserProgress` table as its key map, and the
`levels.json` content used by the adaptive engine. -/

structure Word where
  id : Nat
  text : String
deriving DecidableEq, Repr

structure Level where
  id : Nat
  name : String
deriving DecidableEq, Repr

structure LevelWord where
  level_id : Nat
  word_id : Nat
deriving DecidableEq, Repr

/-- The persistent store read by the services: the `Level`, `LevelWord` and
`Word` tables (rows in stored order), the `UserProgress` table as its
`(user_id, word_id)` key map (one row per key), and the parsed content of
`app/data/levels.json` (level name to word list). -/
structure DB where
  levels : List Level
  level_words : List LevelWord
  words : List Word
  progress : Nat → Nat → Option ProgressRecord
  levels_json : List (String × List String)

/-- Insert into a list sorted by `key`, keeping the inserted element before
existing elements of equal key (stability of Python's sort). -/
def insertSorted {β γ : Type} [LinearOrder γ] (key : β → γ) (x : β) : List β → List β
  | [] => [x]
  | y :: l => if key y < key x then y :: insertSorted key x l else x :: y :: l

/-- Python's stable ascending sort by `key` (`list.sort(key=...)` /
`order_by(... .asc())`), modelled as stable insertion sort. -/
def sortByKey {β γ : Type} [LinearOrder γ] (key : β → γ) : List β → List β
  | [] => []
  | x :: l => insertSorted key x (sortByKey key l)

/-- The element with the least `key`, ties resolved to the earliest element in
the list (used by the spec-side definitions to say "lowest score, ties broken
by stored order"). -/
def argminKey {β γ : Type} [LinearOrder γ] (key : β → γ) : List β → Option β
  | [] => none
  | x :: l =>
    match argminKey key l with
    | none => some x
    | some b => if key b < key x then some b else some x

theorem head_sortByKey {β γ : Type} [LinearOrder γ] (key : β → γ) (l : List β) :
    (sortByKey key l).head? = argminKey key l := by
  induction l with
  | nil => rfl
  | cons x l ih =>
    show (insertSorted key x (sortByKey key l)).head? = _
    cases hs : sortByKey key l with
    | nil =>
      have ha : argminKey key l = none := by rw [← ih, hs]; rfl
      simp [insertSorted, argminKey, ha]
    | cons b t =>
      have hb : argminKey key l = some b := by rw [← ih, hs]; rfl
      show (insertSorted key x (b :: t)).head? = argminKey key (x :: l)
      rw [insertSorted]
      simp only [argminKey, hb]
      by_cases h : key b < key x
      · rw [if_pos h, if_pos h]; rfl
      · rw [if_neg h, if_neg h]; rfl


theorem mem_insertSorted {β γ : Type} [LinearOrder γ] (key : β → γ) (x a : β)
    (l : List β) : a ∈ insertSorted key x l ↔ a = x ∨ a ∈ l := by
  induction l with
  | nil => simp [insertSorted]
  | cons y t ih =>
    simp only [insertSorted]
    split
    · simp only [List.mem_cons, ih]
      tauto
    · simp only [List.mem_cons]

theorem mem_sortByKey {β γ : Type} [LinearOrder γ] (key : β → γ) (a : β)
    (l : List β) : a ∈ sortByKey key l ↔ a ∈ l := by
  induction l with
  | nil => simp [sortByKey]
  | cons x t ih =>
    simp only [sortByKey, mem_insertSorted, List.mem_cons, ih]

/-! Query and partition steps shared by `recommend_next_word` and its
backend variant (progress_service.py lines 220-239 resp. 178-194). -/

/-- The word ids linked to a level: `[lw.word_id for lw in level_word_links]`
over `LevelWord` rows filtered to the level. -/
def levelWordIds (db : DB) (lid : Nat) : List Nat :=
  (db.level_words.filter (fun lw => lw.level_id == lid)).map (fun lw => lw.word_id)

/-- The level's `Word` rows: `Word.id.in_(level_word_ids)`, in stored order. -/
def levelWords (db : DB) (lid : Nat) : List Word :=
  db.words.filter (fun w => (levelWordIds db lid).contains w.id)

/-- `not_attempted`: the level's words with no progress row for the user. -/
def notAttemptedWords (db : DB) (user lid : Nat) : List Word :=
  (levelWords db lid).filter (fun w => (db.progress user w.id).isNone)

/-- `unmastered`: the level's words whose progress row has `score < threshold`. -/
def unmasteredWords (db : DB) (user : Nat) (threshold : ℚ) (lid : Nat) : List Word :=
  (levelWords db lid).filter (fun w =>
    match db.progress user w.id with
    | some p => decide (p.score < threshold)
    | none => false)

/-- `mastered`: the level's words whose progress row has `score >= threshold`. -/
def masteredWords (db : DB) (user : Nat) (threshold : ℚ) (lid : Nat) : List Word :=
  (levelWords db lid).filter (fun w =>
    match db.progress user w.id with
    | some p => decide (p.score >= threshold)
    | none => false)

/-- The sort key `lambda w: progress_map[w.id].score` (the `none` branch is
unreachable on the lists it is used on: every unmastered word has a row). -/
def scoreKey (db : DB) (user : Nat) : Word → ℚ := fun w =>
  match db.progress user w.id with
  | some p => p.score
  | none => 0

/-- Result of `recommend_next_word`: the "No levels available." message, a
practice recommendation (level, word, reason, and the score field present only
in the lowest-score case), or the terminal all-levels-mastered message. -/
inductive Recommendation where
  | noLevels
  | practice (level : String) (word : String) (reason : String) (score : Option ℚ)
  | allMastered
deriving DecidableEq, Repr

/-- The level loop of `recommend_next_word`
(app/services/progress_service.py lines 220-265): per level, skip when the
level has no `LevelWord` links, partition the level's words against the user's
progress rows, stay in the level while not all words are mastered, preferring
a new word and then the stable-sorted lowest-scoring unmastered word. -/
def recommendGo (db : DB) (user : Nat) : List Level → Recommendation
  | [] => .allMastered
  | level :: rest =>
    if (levelWordIds db level.id).isEmpty then recommendGo db user rest
    else if (masteredWords db user MASTER_THRESHOLD level.id).length
        < (levelWords db level.id).length then
      match notAttemptedWords db user level.id with
      | w :: _ => .practice level.name w.text "New word not attempted yet" none
      | [] =>
        match sortByKey (scoreKey db user)
            (unmasteredWords db user MASTER_THRESHOLD level.id) with
        | w :: _ => .practice level.name w.text "Lowest score, needs improvement"
            ((db.progress user w.id).map (fun p => p.score))
        | [] => recommendGo db user rest
    else recommendGo db user rest

/-- `recommend_next_word` (app/services/progress_service.py lines 205-265):
levels are walked in ascending id order; with no levels at all the structured
"No levels available." result is returned. -/
def recommend_next_word (db : DB) (user : Nat) : Recommendation :=
  if (sortByKey (fun l : Level => l.id) db.levels).isEmpty then .noLevels
  else recommendGo db user (sortByKey (fun l : Level => l.id) db.levels)

/-- The level loop of the backend variant
(backend/app/services/progress_service.py lines 178-214): identical partition
and selection, but no empty-level skip (an empty level falls through the
`len(mastered) < len(words)` check) and a different lowest-score reason. -/
def backendRecommendGo (db : DB) (user : Nat) : List Level → Recommendation
  | [] => .allMastered
  | level :: rest =>
    if (masteredWords db user MASTER_THRESHOLD level.id).length
        < (levelWords db level.id).length then
      match notAttemptedWords db user level.id with
      | w :: _ => .practice level.name w.text "New word not attempted yet" none
      | [] =>
        match sortByKey (scoreKey db user)
            (unmasteredWords db user MASTER_THRESHOLD level.id) with
        | w :: _ => .practice level.name w.text "Lowest performing word"
            ((db.progress user w.id).map (fun p => p.score))
        | [] => backendRecommendGo db user rest
    else backendRecommendGo db user rest

/-- `recommend_next_word` of the backend variant
(backend/app/services/progress_service.py lines 174-216): same loop, but with
no levels configured the loop body never runs and the function returns the
terminal "All levels mastered!" result. -/
def backend_recommend_next_word (db : DB) (user : Nat) : Recommendation :=
  backendRecommendGo db user (sortByKey (fun l : Level => l.id) db.levels)

/-- The spec's `Recommendation` outcomes (spec §4.4 / §6): a structured
"no recommendation available" result, a "new word" recommendation, a
"lowest score" recommendation carrying the word's current score, or the
terminal all-levels-mastered result. -/
inductive RecommendationSpec where
  | noRecommendation
  | newWord (level : String) (word : String)
  | lowestScore (level : String) (word : String) (score : ℚ)
  | allLevelsMastered
deriving DecidableEq, Repr

/-- The spec's per-level walk (spec §4.4), written from the specification's
words: partition the level's words into `notAttempted`, `unmastered` and
`mastered`; skip levels with no words; advance when `mastered.size ==
words.size`; otherwise recommend the first `notAttempted` word ("new word"),
else the `unmastered` word with the lowest score, ties broken by stored order
("lowest score"; the unreachable no-candidate case advances). -/
def recommendSpecGo (db : DB) (user : Nat) (threshold : ℚ) :
    List Level → RecommendationSpec
  | [] => .allLevelsMastered
  | level :: rest =>
    if (levelWords db level.id).isEmpty then recommendSpecGo db user threshold rest
    else if (masteredWords db user threshold level.id).length
        = (levelWords db level.id).length then
      recommendSpecGo db user threshold rest
    else
      match notAttemptedWords db user level.id with
      | w :: _ => .newWord level.name w.text
      | [] =>
        match argminKey (scoreKey db user) (unmasteredWords db user threshold level.id) with
        | some w => .lowestScore level.name w.text (scoreKey db user w)
        | none => recommendSpecGo db user threshold rest

/-- The spec's `recommendNext` (spec §4.4, §7): iterate levels in ascending
ordinal order; with no levels configured return the structured
"no recommendation available" result. -/
def recommendNextSpec (db : DB) (user : Nat) (threshold : ℚ) : RecommendationSpec :=
  if (sortByKey (fun l : Level => l.id) db.levels).isEmpty then .noRecommendation
  else recommendSpecGo db user threshold (sortByKey (fun l : Level => l.id) db.levels)

/-- Correspondence between a result of the embedded `recommend_next_word` and
a spec outcome: same shape, same level, same word, same score, with the
source's literal reason strings realising the spec's "new word" and
"lowest score" reasons. -/
def recommendationAgrees : Recommendation → RecommendationSpec → Bool
  | .noLevels, .noRecommendation => true
  | .allMastered, .allLevelsMastered => true
  | .practice l w r none, .newWord l2 w2 =>
      decide (l = l2) && decide (w = w2) && decide (r = "New word not attempted yet")
  | .practice l w r (some sc), .lowestScore l2 w2 sc2 =>
      decide (l = l2) && decide (w = w2) && decide (sc = sc2)
        && decide (r = "Lowest score, needs improvement")
  | _, _ => false

theorem recommendGo_agrees (db : DB) (user : Nat) : ∀ ls : List Level,
    recommendationAgrees (recommendGo db user ls)
      (recommendSpecGo db user MASTER_THRESHOLD ls) = true := by
  intro ls
  induction ls with
  | nil => rfl
  | cons level rest ih =>
    rw [recommendGo, recommendSpecGo]
    by_cases hids : (levelWordIds db level.id).isEmpty
    · have hwords : levelWords db level.id = [] := by
        unfold levelWords
        rw [List.isEmpty_iff] at hids
        rw [hids]
        simp
      rw [if_pos hids, if_pos (by rw [hwords]; rfl)]
      exact ih
    · rw [if_neg hids]
      by_cases hwe : (levelWords db level.id).isEmpty
      · have hw : levelWords db level.id = [] := List.isEmpty_iff.mp hwe
        have h0 : ¬ (masteredWords db user MASTER_THRESHOLD level.id).length
            < (levelWords db level.id).length := by
          unfold masteredWords
          rw [hw]
          simp
        rw [if_neg h0, if_pos hwe]
        exact ih
      · rw [if_neg hwe]
        have hle : (masteredWords db user MASTER_THRESHOLD level.id).length
            ≤ (levelWords db level.id).length := List.length_filter_le _ _
        by_cases hml : (masteredWords db user MASTER_THRESHOLD level.id).length
            < (levelWords db level.id).length
        · rw [if_pos hml, if_neg (by omega)]
          cases hna : notAttemptedWords db user level.id with
          | cons w t =>
            simp [recommendationAgrees]
          | nil =>
            cases hs : sortByKey (scoreKey db user)
                (unmasteredWords db user MASTER_THRESHOLD level.id) with
            | nil =>
              have hargmin : argminKey (scoreKey db user)
                  (unmasteredWords db user MASTER_THRESHOLD level.id) = none := by
                rw [← head_sortByKey, hs]
                rfl
              rw [hargmin]
              exact ih
            | cons w t =>
              have hargmin : argminKey (scoreKey db user)
                  (unmasteredWords db user MASTER_THRESHOLD level.id) = some w := by
                rw [← head_sortByKey, hs]
                rfl
              have hwmem : w ∈ unmasteredWords db user MASTER_THRESHOLD level.id :=
                (mem_sortByKey _ _ _).mp (hs ▸ List.mem_cons_self w t)
              have hpw := (List.mem_filter.mp hwmem).2
              rw [hargmin]
              dsimp only
              unfold scoreKey
              cases hp : db.progress user w.id with
              | none =>
                exfalso
                rw [hp] at hpw
                simp at hpw
              | some p =>
                simp [recommendationAgrees]
        · rw [if_neg hml, if_pos (by omega)]
          exact ih

/-- C3: the two-tier `recommend_next_word` matches the spec's recommendNext
algorithm with mastery threshold 80: ascending level order, partition into
notAttempted / unmastered / mastered, skip levels with no words, advance
exactly when every word is mastered, first notAttempted word ("new word"),
else the lowest-scoring unmastered word with ties broken by stored order
("lowest score"), terminal all-levels-mastered result when every level is
complete. -/
theorem C3_recommend_next_word_matches_spec (db : DB) (user : Nat) :
    recommendationAgrees (recommend_next_word db user)
      (recommendNextSpec db user MASTER_THRESHOLD) = true := by
  unfold recommend_next_word recommendNextSpec
  by_cases hemp : (sortByKey (fun l : Level => l.id) db.levels).isEmpty
  · rw [if_pos hemp, if_pos hemp]
    rfl
  · rw [if_neg hemp, if_neg hemp]
    exact recommendGo_agrees db user _

/-- A closed instance of `C3_recommend_next_word_matches_spec`. -/
theorem C3_witness :
    recommendationAgrees
      (recommend_next_word ⟨[⟨1, "A"⟩], [⟨1, 7⟩], [⟨7, "cat"⟩], fun _ _ => none, []⟩ 1)
      (recommendNextSpec ⟨[⟨1, "A"⟩], [⟨1, 7⟩], [⟨7, "cat"⟩], fun _ _ => none, []⟩ 1
        MASTER_THRESHOLD) = true :=
  C3_recommend_next_word_matches_spec _ 1

/-- C9 counterexample: with no levels configured, the backend
`recommend_next_word` returns exactly the terminal all-levels-mastered result,
not a structured "no recommendation available" result distinct from it. -/
theorem C9_counterexample :
    backend_recommend_next_word ⟨[], [], [], fun _ _ => none, []⟩ 1
        = Recommendation.allMastered
    ∧ Recommendation.allMastered ≠ Recommendation.noLevels :=
  ⟨rfl, by decide⟩

/-- C9 amended: the app variant returns the structured "No levels available."
result when no levels are configured — distinct from both an exception and the
terminal all-levels-mastered result — while the backend variant falls through
its level loop and returns the terminal all-levels-mastered result. -/
theorem C9_no_levels_behaviour (db : DB) (user : Nat) (h : db.levels = []) :
    recommend_next_word db user = Recommendation.noLevels
    ∧ backend_recommend_next_word db user = Recommendation.allMastered
    ∧ Recommendation.noLevels ≠ Recommendation.allMastered := by
  refine ⟨?_, ?_, by decide⟩
  · unfold recommend_next_word
    rw [h]
    rfl
  · unfold backend_recommend_next_word
    rw [h]
    rfl

/-- A closed instance of `C9_no_levels_behaviour`. -/
theorem C9_witness :
    recommend_next_word ⟨[], [], [], fun _ _ => none, []⟩ 1 = Recommendation.noLevels
    ∧ backend_recommend_next_word ⟨[], [], [], fun _ _ => none, []⟩ 1
        = Recommendation.allMastered
    ∧ Recommendation.noLevels ≠ Recommendation.allMastered :=
  C9_no_levels_behaviour _ 1 rfl

/-! ### Adaptive engine: `get_next_adaptive_word`
(app/services/adaptive_engine.py lines 6-83 and
backend/app/services/adaptive_engine.py lines 11-101). -/

/-- `get_words_for_level` (app/utils/levels.py): `data.get(level, [])` on the
parsed `levels.json`. -/
def get_words_for_level (db : DB) (level : String) : List String :=
  match db.levels_json.find? (fun e => e.1 == level) with
  | some e => e.2
  | none => []

/-- The level's `Word` rows: `Word.text.in_(level_words)`, in stored order. -/
def adaptiveWordObjs (db : DB) (level : String) : List Word :=
  db.words.filter (fun w => (get_words_for_level db level).contains w.text)

/-- The `UserProgress` rows matching `user_id == user` and `word_id ∈ ids`:
the table holds one row per `(user, word)` key, so each distinct id yields at
most one row. -/
def progressRowsFor (db : DB) (user : Nat) (ids : List Nat) :
    List (Nat × ProgressRecord) :=
  ids.dedup.filterMap (fun wid => (db.progress user wid).map (fun p => (wid, p)))

/-- `mastered_count`: `sum(1 for p in progress_entries if p.mastered == "yes")`. -/
def masteredCountRows (db : DB) (user : Nat) (ids : List Nat) : Nat :=
  (progressRowsFor db user ids).countP (fun row => row.2.mastered == "yes")

/-- A `ranked` entry of the app variant (a dict with `word`, `priority`,
`reason`, `score`; `attempts` is read back with `.get("attempts", 0)`, so the
not-attempted entries carry 0 here). -/
structure AppRankedEntry where
  word : String
  priority : ℚ
  reason : String
  score : ℚ
  attempts : Nat
deriving DecidableEq, Repr

/-- The app variant's entry for one word (adaptive_engine.py lines 28-58):
priority 1 and score 0 when never attempted, otherwise the weighted score
`(1 - score/100)*0.5 + penalty*0.3 + (1 - movingAvg/100)*0.2`, plus 10 when
the row is mastered. -/
def appRankedEntry (db : DB) (user : Nat) (w : Word) : AppRankedEntry :=
  match db.progress user w.id with
  | none => { word := w.text, priority := 1, reason := "not_attempted", score := 0, attempts := 0 }
  | some p =>
    { word := w.text
      priority := (1 - p.score / 100) * 0.5 + p.penalty_score * 0.3
          + (1 - p.moving_avg_score / 100) * 0.2
          + (if p.mastered == "yes" then 10 else 0)
      reason := if p.score < 60 then "weak" else "medium"
      score := p.score
      attempts := p.attempts }

/-- Result of the app variant: the error dict, the `level_complete` dict, or
the `practice` dict; `indexError` models the uncaught `IndexError` that
`ranked_sorted[0]` would raise on an empty ranking. -/
inductive AppAdaptiveResult where
  | error (msg : String)
  | levelComplete (mastered : Nat) (total : Nat)
  | practice (next_word : String) (reason : String) (score : ℚ) (attempts : Nat) (priority : ℚ)
  | indexError
deriving DecidableEq, Repr

/-- `get_next_adaptive_word` of the app variant
(app/services/adaptive_engine.py lines 6-83): error when the level has no
words in `levels.json`; rank every matching `Word` row; report
`level_complete` when `mastered_count >= 0.8 * total_words`; otherwise return
the first entry of the ranking sorted by ascending priority. -/
def app_get_next_adaptive_word (db : DB) (user : Nat) (level : String) :
    AppAdaptiveResult :=
  if (get_words_for_level db level).isEmpty then .error "No words found in level"
  else
    let word_objs := adaptiveWordObjs db level
    let ranked_sorted := sortByKey (fun r : AppRankedEntry => r.priority)
      (word_objs.map (appRankedEntry db user))
    let mastered_count := masteredCountRows db user (word_objs.map (fun w => w.id))
    if 0.8 * (word_objs.length : ℚ) ≤ (mastered_count : ℚ) then
      .levelComplete mastered_count word_objs.length
    else
      match ranked_sorted with
      | c :: _ => .practice c.word c.reason c.score c.attempts c.priority
      | [] => .indexError

/-- A `ranked` entry of the backend variant (its not-attempted entries carry
priority 0.1 and score `None`). -/
structure BackendRankedEntry where
  word : String
  priority : ℚ
  reason : String
  score : Option ℚ
  attempts : Nat
deriving DecidableEq, Repr

/-- The backend variant's entry for one word
(backend/app/services/adaptive_engine.py lines 41-72). -/
def backendRankedEntry (db : DB) (user : Nat) (w : Word) : BackendRankedEntry :=
  match db.progress user w.id with
  | none => { word := w.text, priority := 0.1, reason := "not_attempted",
              score := none, attempts := 0 }
  | some p =>
    { word := w.text
      priority := (1 - p.score / 100) * 0.5 + p.penalty_score * 0.3
          + (1 - p.moving_avg_score / 100) * 0.2
          + (if p.mastered == "yes" then 10 else 0)
      reason := if p.score < 60 then "weak" else "medium"
      score := some p.score
      attempts := p.attempts }

/-- Result of the backend variant (it also reports the level). -/
inductive BackendAdaptiveResult where
  | error (msg : String)
  | levelComplete (level : String) (mastered : Nat) (total : Nat)
  | practice (level : String) (next_word : String) (reason : String)
      (score : Option ℚ) (attempts : Nat) (priority : ℚ)
  | indexError
deriving DecidableEq, Repr

/-- `get_next_adaptive_word` of the backend variant
(backend/app/services/adaptive_engine.py lines 11-101): as the app variant but
with the 0.1 not-attempted priority and the completion check written
`mastered_count >= MASTER_THRESHOLD / 100 * total`. -/
def backend_get_next_adaptive_word (db : DB) (user : Nat) (level : String) :
    BackendAdaptiveResult :=
  if (get_words_for_level db level).isEmpty then .error "No words found in this level"
  else
    let word_objs := adaptiveWordObjs db level
    let ranked_sorted := sortByKey (fun r : BackendRankedEntry => r.priority)
      (word_objs.map (backendRankedEntry db user))
    let mastered_count := masteredCountRows db user (word_objs.map (fun w => w.id))
    if MASTER_THRESHOLD / 100 * (word_objs.length : ℚ) ≤ (mastered_count : ℚ) then
      .levelComplete level mastered_count word_objs.length
    else
      match ranked_sorted with
      | c :: _ => .practice level c.word c.reason c.score c.attempts c.priority
      | [] => .indexError

theorem argminKey_eq_none {β γ : Type} [LinearOrder γ] (key : β → γ) (l : List β) :
    argminKey key l = none ↔ l = [] := by
  cases l with
  | nil => simp [argminKey]
  | cons x t =>
    simp only [argminKey]
    cases hm : argminKey key t with
    | none => simp
    | some b =>
      constructor
      · intro h
        dsimp only at h
        split at h <;> exact absurd h (by simp)
      · intro h
        exact absurd h (by simp)

theorem argminKey_map {β β2 γ : Type} [LinearOrder γ] (key : β2 → γ) (f : β → β2)
    (l : List β) :
    argminKey key (l.map f) = Option.map f (argminKey (fun x => key (f x)) l) := by
  induction l with
  | nil => rfl
  | cons x t ih =>
    simp only [List.map_cons, argminKey, ih]
    cases argminKey (fun x => key (f x)) t with
    | none => rfl
    | some b =>
      simp only [Option.map]
      split <;> rfl

theorem argminKey_mem {β γ : Type} [LinearOrder γ] (key : β → γ) :
    ∀ (l : List β) (b : β), argminKey key l = some b → b ∈ l := by
  intro l
  induction l with
  | nil =>
    intro b h
    exact absurd h (by simp [argminKey])
  | cons x t ih =>
    intro b h
    rw [argminKey] at h
    cases hm : argminKey key t with
    | none =>
      rw [hm] at h
      injection h with h
      subst h
      exact List.mem_cons_self x t
    | some c =>
      rw [hm] at h
      dsimp only at h
      by_cases hlt : key c < key x
      · rw [if_pos hlt] at h
        injection h with h
        subst h
        exact List.mem_cons_of_mem x (ih c hm)
      · rw [if_neg hlt] at h
        injection h with h
        subst h
        exact List.mem_cons_self x t

theorem argminKey_le {β γ : Type} [LinearOrder γ] (key : β → γ) :
    ∀ (l : List β) (b : β), argminKey key l = some b → ∀ x ∈ l, key b ≤ key x := by
  intro l
  induction l with
  | nil =>
    intro b h
    exact absurd h (by simp [argminKey])
  | cons x t ih =>
    intro b h y hy
    rw [argminKey] at h
    cases hm : argminKey key t with
    | none =>
      rw [hm] at h
      injection h with h
      subst h
      have ht : t = [] := (argminKey_eq_none key t).mp hm
      subst ht
      rcases List.mem_cons.mp hy with rfl | hyt
      · exact le_rfl
      · exact absurd hyt (by simp)
    | some c =>
      rw [hm] at h
      dsimp only at h
      by_cases hlt : key c < key x
      · rw [if_pos hlt] at h
        injection h with h
        subst h
        rcases List.mem_cons.mp hy with rfl | hyt
        · exact le_of_lt hlt
        · exact ih c hm y hyt
      · rw [if_neg hlt] at h
        injection h with h
        subst h
        rcases List.mem_cons.mp hy with rfl | hyt
        · exact le_rfl
        · exact le_trans (not_lt.mp hlt) (ih c hm y hyt)

theorem countRows_aux (db : DB) (user : Nat) : ∀ ws : List Word,
    (((ws.map (fun w => w.id)).filterMap
        (fun wid => (db.progress user wid).map (fun p => (wid, p)))).countP
      (fun row => row.2.mastered == "yes"))
    = (ws.filter (fun w =>
        match db.progress user w.id with
        | some p => p.mastered == "yes"
        | none => false)).length := by
  intro ws
  induction ws with
  | nil => rfl
  | cons w ws ih =>
    rw [List.map_cons, List.filterMap_cons, List.filter_cons]
    cases hp : db.progress user w.id with
    | none =>
      simpa using ih
    | some p =>
      simp only [Option.map_some']
      dsimp only
      rw [List.countP_cons, ih]
      by_cases hflag : (p.mastered == "yes") = true
      · rw [if_pos hflag, if_pos hflag, List.length_cons]
      · rw [if_neg (by simp [hflag]), if_neg (by simp [hflag])]
        simp

/-- Row counting equals word counting when the word ids are distinct (they
are: `id` is the `Word` table's primary key). -/
theorem countRows_eq (db : DB) (user : Nat) (ws : List Word)
    (h : (ws.map (fun w => w.id)).Nodup) :
    masteredCountRows db user (ws.map (fun w => w.id))
      = (ws.filter (fun w =>
          match db.progress user w.id with
          | some p => p.mastered == "yes"
          | none => false)).length := by
  unfold masteredCountRows progressRowsFor
  rw [List.dedup_eq_self.mpr h]
  exact countRows_aux db user ws

theorem wordObjs_ids_nodup (db : DB) (level : String)
    (h : (db.words.map (fun w => w.id)).Nodup) :
    ((adaptiveWordObjs db level).map (fun w => w.id)).Nodup := by
  unfold adaptiveWordObjs
  exact ((List.filter_sublist db.words).map (fun w => w.id)).nodup h

/-- The spec's weighted priority for the level-scoped `adaptiveNext`
(spec §4.4): `constant_low` when not attempted, otherwise
`(1 - score/100)*0.5 + penaltyScore*0.3 + (1 - movingAvgScore/100)*0.2`,
plus 10 when already mastered. -/
def adaptivePrioritySpec (db : DB) (user : Nat) (constLow : ℚ) (w : Word) : ℚ :=
  match db.progress user w.id with
  | none => constLow
  | some p =>
    (1 - p.score / 100) * 0.5 + p.penalty_score * 0.3
      + (1 - p.moving_avg_score / 100) * 0.2
      + (if (toSpec p).mastered then 10 else 0)

/-- The spec's `adaptiveNext` outcomes: no candidate words, level completion
with the mastered/total counts, or a practice word. -/
inductive AdaptiveSpecOutcome where
  | noWords
  | complete (mastered : Nat) (total : Nat)
  | practice (word : String)
deriving DecidableEq, Repr

/-- The spec's level-scoped `adaptiveNext` (spec §4.4), written from the
specification's words: rank the level's candidates by the weighted priority,
pick the minimum-priority word, and separately report level completion once
`masteredCount >= 0.8 * totalWords`. -/
def adaptiveNextSpec (db : DB) (user : Nat) (level : String) (constLow : ℚ) :
    AdaptiveSpecOutcome :=
  if (get_words_for_level db level).isEmpty then .noWords
  else
    let words := adaptiveWordObjs db level
    let masteredCount := (words.filter (fun w =>
      match db.progress user w.id with
      | some p => p.mastered == "yes"
      | none => false)).length
    if 0.8 * (words.length : ℚ) ≤ (masteredCount : ℚ) then
      .complete masteredCount words.length
    else
      match argminKey (adaptivePrioritySpec db user constLow) words with
      | some w => .practice w.text
      | none => .noWords

/-- Correspondence between an app-variant result and a spec outcome. -/
def appAdaptiveAgrees : AppAdaptiveResult → AdaptiveSpecOutcome → Bool
  | .error _, .noWords => true
  | .levelComplete m t, .complete m2 t2 => decide (m = m2) && decide (t = t2)
  | .practice wname _ _ _ _, .practice w2 => decide (wname = w2)
  | _, _ => false

/-- Correspondence between a backend-variant result and a spec outcome. -/
def backendAdaptiveAgrees : BackendAdaptiveResult → AdaptiveSpecOutcome → Bool
  | .error _, .noWords => true
  | .levelComplete _ m t, .complete m2 t2 => decide (m = m2) && decide (t = t2)
  | .practice _ wname _ _ _ _, .practice w2 => decide (wname = w2)
  | _, _ => false

theorem appRankedEntry_priority (db : DB) (user : Nat) (w : Word) :
    (appRankedEntry db user w).priority = adaptivePrioritySpec db user 1 w := by
  unfold appRankedEntry adaptivePrioritySpec toSpec
  cases db.progress user w.id <;> rfl

theorem appRankedEntry_word (db : DB) (user : Nat) (w : Word) :
    (appRankedEntry db user w).word = w.text := by
  unfold appRankedEntry
  cases db.progress user w.id <;> rfl

theorem backendRankedEntry_priority (db : DB) (user : Nat) (w : Word) :
    (backendRankedEntry db user w).priority = adaptivePrioritySpec db user 0.1 w := by
  unfold backendRankedEntry adaptivePrioritySpec toSpec
  cases db.progress user w.id <;> rfl

theorem backendRankedEntry_word (db : DB) (user : Nat) (w : Word) :
    (backendRankedEntry db user w).word = w.text := by
  unfold backendRankedEntry
  cases db.progress user w.id <;> rfl

theorem app_adaptive_agrees (db : DB) (user : Nat) (level : String)
    (hnodup : (db.words.map (fun w => w.id)).Nodup) :
    appAdaptiveAgrees (app_get_next_adaptive_word db user level)
      (adaptiveNextSpec db user level 1) = true := by
  unfold app_get_next_adaptive_word adaptiveNextSpec
  by_cases hw : (get_words_for_level db level).isEmpty
  · rw [if_pos hw, if_pos hw]
    rfl
  · rw [if_neg hw, if_neg hw]
    dsimp only
    rw [countRows_eq db user _ (wordObjs_ids_nodup db level hnodup)]
    by_cases hc : (0.8 : ℚ) * ((adaptiveWordObjs db level).length : ℚ)
        ≤ ((((adaptiveWordObjs db level).filter (fun w =>
            match db.progress user w.id with
            | some p => p.mastered == "yes"
            | none => false)).length : ℚ))
    · rw [if_pos hc, if_pos hc]
      simp [appAdaptiveAgrees]
    · rw [if_neg hc, if_neg hc]
      have hmin : argminKey (fun r : AppRankedEntry => r.priority)
          ((adaptiveWordObjs db level).map (appRankedEntry db user))
          = Option.map (appRankedEntry db user)
            (argminKey (adaptivePrioritySpec db user 1) (adaptiveWordObjs db level)) := by
        rw [argminKey_map]
        rw [show (fun x => (appRankedEntry db user x).priority)
            = adaptivePrioritySpec db user 1 from funext (appRankedEntry_priority db user)]
      cases hs : sortByKey (fun r : AppRankedEntry => r.priority)
          ((adaptiveWordObjs db level).map (appRankedEntry db user)) with
      | nil =>
        exfalso
        have h1 : argminKey (fun r : AppRankedEntry => r.priority)
            ((adaptiveWordObjs db level).map (appRankedEntry db user)) = none := by
          rw [← head_sortByKey, hs]
          rfl
        rw [hmin, Option.map_eq_none'] at h1
        have h3 : adaptiveWordObjs db level = [] := (argminKey_eq_none _ _).mp h1
        rw [h3] at hc
        simp at hc
      | cons c cs =>
        have h1 : argminKey (fun r : AppRankedEntry => r.priority)
            ((adaptiveWordObjs db level).map (appRankedEntry db user)) = some c := by
          rw [← head_sortByKey, hs]
          rfl
        rw [hmin] at h1
        cases hm : argminKey (adaptivePrioritySpec db user 1) (adaptiveWordObjs db level) with
        | none =>
          rw [hm] at h1
          exact absurd h1 (by simp)
        | some w =>
          rw [hm, Option.map_some'] at h1
          injection h1 with h1
          rw [← h1]
          simp [appAdaptiveAgrees, appRankedEntry_word]

theorem backend_adaptive_agrees (db : DB) (user : Nat) (level : String)
    (hnodup : (db.words.map (fun w => w.id)).Nodup) :
    backendAdaptiveAgrees (backend_get_next_adaptive_word db user level)
      (adaptiveNextSpec db user level 0.1) = true := by
  unfold backend_get_next_adaptive_word adaptiveNextSpec
  by_cases hw : (get_words_for_level db level).isEmpty
  · rw [if_pos hw, if_pos hw]
    rfl
  · rw [if_neg hw, if_neg hw]
    dsimp only
    rw [countRows_eq db user _ (wordObjs_ids_nodup db level hnodup)]
    rw [show MASTER_THRESHOLD / 100 = (0.8 : ℚ) from by norm_num [MASTER_THRESHOLD]]
    by_cases hc : (0.8 : ℚ) * ((adaptiveWordObjs db level).length : ℚ)
        ≤ ((((adaptiveWordObjs db level).filter (fun w =>
            match db.progress user w.id with
            | some p => p.mastered == "yes"
            | none => false)).length : ℚ))
    · rw [if_pos hc, if_pos hc]
      simp [backendAdaptiveAgrees]
    · rw [if_neg hc, if_neg hc]
      have hmin : argminKey (fun r : BackendRankedEntry => r.priority)
          ((adaptiveWordObjs db level).map (backendRankedEntry db user))
          = Option.map (backendRankedEntry db user)
            (argminKey (adaptivePrioritySpec db user 0.1) (adaptiveWordObjs db level)) := by
        rw [argminKey_map]
        rw [show (fun x => (backendRankedEntry db user x).priority)
            = adaptivePrioritySpec db user 0.1 from funext (backendRankedEntry_priority db user)]
      cases hs : sortByKey (fun r : BackendRankedEntry => r.priority)
          ((adaptiveWordObjs db level).map (backendRankedEntry db user)) with
      | nil =>
        exfalso
        have h1 : argminKey (fun r : BackendRankedEntry => r.priority)
            ((adaptiveWordObjs db level).map (backendRankedEntry db user)) = none := by
          rw [← head_sortByKey, hs]
          rfl
        rw [hmin, Option.map_eq_none'] at h1
        have h3 : adaptiveWordObjs db level = [] := (argminKey_eq_none _ _).mp h1
        rw [h3] at hc
        simp at hc
      | cons c cs =>
        have h1 : argminKey (fun r : BackendRankedEntry => r.priority)
            ((adaptiveWordObjs db level).map (backendRankedEntry db user)) = some c := by
          rw [← head_sortByKey, hs]
          rfl
        rw [hmin] at h1
        cases hm : argminKey (adaptivePrioritySpec db user 0.1) (adaptiveWordObjs db level) with
        | none =>
          rw [hm] at h1
          exact absurd h1 (by simp)
        | some w =>
          rw [hm, Option.map_some'] at h1
          injection h1 with h1
          rw [← h1]
          simp [backendAdaptiveAgrees, backendRankedEntry_word]

/-- Bounds that every stored progress row satisfies (scores produced by the
alignment scorer lie in [0,100], penalties never go negative, and
`record_attempt` writes `mastered = "yes"` exactly when the score reaches the
threshold). -/
def ValidRecord (p : ProgressRecord) : Prop :=
  0 ≤ p.score ∧ p.score ≤ 100 ∧ 0 ≤ p.moving_avg_score ∧ p.moving_avg_score ≤ 100 ∧
  0 ≤ p.penalty_score ∧ (p.mastered = "yes" ↔ MASTER_THRESHOLD ≤ p.score)

theorem attempted_priority_gt (db : DB) (user : Nat) (w : Word) (p : ProgressRecord)
    (hp : db.progress user w.id = some p) (hv : ValidRecord p) :
    (0.1 : ℚ) < adaptivePrioritySpec db user 0.1 w := by
  obtain ⟨h0, h100, ha0, ha100, hpen, hmast⟩ := hv
  unfold adaptivePrioritySpec
  rw [hp]
  dsimp only
  by_cases hm : (toSpec p).mastered = true
  · rw [if_pos hm]
    linarith
  · rw [if_neg hm]
    have hne : p.mastered ≠ "yes" := by
      intro h
      exact hm (by simp [toSpec, h])
    have hs : p.score < MASTER_THRESHOLD := by
      by_contra hge
      exact hne (hmast.mpr (not_lt.mp hge))
    have h80 : MASTER_THRESHOLD = 80 := rfl
    rw [h80] at hs
    linarith

/-- C4 (amended): the two implementations of the level-scoped `adaptiveNext`
both follow the spec's weighted ranking — not-attempted words get a constant
priority, attempted words get `(1 - score/100)*0.5 + penalty*0.3 +
(1 - movingAvg/100)*0.2` plus 10 when mastered, the minimum-priority word is
recommended, and completion is reported exactly when
`masteredCount >= 0.8 * totalWords` — but with different constants: the app
variant uses constant 1, the backend variant constant 0.1, and the backend's
threshold is written `MASTER_THRESHOLD / 100 = 0.8`. For the backend's
constant 0.1, the not-attempted-first ordering holds: when a valid store has a
not-attempted word in the level, the minimum-priority word is not-attempted.
(The app variant's constant 1 does NOT guarantee this; see the
counterexample.) -/
theorem C4_adaptive_next_amended (db : DB) (user : Nat) (level : String)
    (hnodup : (db.words.map (fun w => w.id)).Nodup)
    (hvalid : ∀ u wid p, db.progress u wid = some p → ValidRecord p) :
    appAdaptiveAgrees (app_get_next_adaptive_word db user level)
        (adaptiveNextSpec db user level 1) = true
    ∧ backendAdaptiveAgrees (backend_get_next_adaptive_word db user level)
        (adaptiveNextSpec db user level 0.1) = true
    ∧ (∀ w0 ∈ adaptiveWordObjs db level, db.progress user w0.id = none →
        ∀ w, argminKey (adaptivePrioritySpec db user 0.1)
            (adaptiveWordObjs db level) = some w →
          db.progress user w.id = none) := by
  refine ⟨app_adaptive_agrees db user level hnodup,
    backend_adaptive_agrees db user level hnodup, ?_⟩
  intro w0 hw0 hw0none w hw
  cases hq : db.progress user w.id with
  | none => rfl
  | some p =>
    exfalso
    have hle := argminKey_le (adaptivePrioritySpec db user 0.1)
      (adaptiveWordObjs db level) w hw w0 hw0
    have h01 : adaptivePrioritySpec db user 0.1 w0 = 0.1 := by
      unfold adaptivePrioritySpec
      rw [hw0none]
    have hgt := attempted_priority_gt db user w p hq (hvalid user w.id p hq)
    rw [h01] at hle
    exact absurd hle (not_le.mpr hgt)

/-- Store with one word never tried by user 1 (id 1, in level `L`). -/
def C4DB : DB :=
  { levels := [], level_words := [],
    words := [⟨1, "w1"⟩],
    progress := fun _ _ => none,
    levels_json := [("L", ["w1"])] }

theorem C4_witness :
    (appAdaptiveAgrees (app_get_next_adaptive_word C4DB 1 "L")
        (adaptiveNextSpec C4DB 1 "L" 1) = true
    ∧ backendAdaptiveAgrees (backend_get_next_adaptive_word C4DB 1 "L")
        (adaptiveNextSpec C4DB 1 "L" 0.1) = true
    ∧ (∀ w0 ∈ adaptiveWordObjs C4DB "L", C4DB.progress 1 w0.id = none →
        ∀ w, argminKey (adaptivePrioritySpec C4DB 1 0.1)
            (adaptiveWordObjs C4DB "L") = some w →
          C4DB.progress 1 w.id = none)) :=
  C4_adaptive_next_amended C4DB 1 "L" (by decide)
    (fun _ _ p h => Option.noConfusion h)

/-- Store where user 1 attempted `w2` (score 70, not mastered, no penalty)
and never attempted `w1`; both words sit in level `L`. -/
def C4CexDB : DB :=
  { levels := [], level_words := [],
    words := [⟨1, "w1"⟩, ⟨2, "w2"⟩],
    progress := fun u wid =>
      if u == 1 && wid == 2 then some ⟨70, 1, "no", 0, 70, 0, 0⟩ else none,
    levels_json := [("L", ["w1", "w2"])] }

/-- C4 counterexample: the app variant's "constant low" priority for
not-attempted words is 1, which is not below the attempted priorities, so the
claimed "every not-attempted word is recommended before any attempted word"
fails: with `w1` never attempted and `w2` attempted at score 70 (priority
`0.21 < 1`), the engine recommends the attempted `w2`. -/
theorem C4_counterexample :
    app_get_next_adaptive_word C4CexDB 1 "L"
      = .practice "w2" "medium" 70 1 (21/100)
    ∧ C4CexDB.progress 1 1 = none
    ∧ (⟨1, "w1"⟩ : Word) ∈ adaptiveWordObjs C4CexDB "L"
    ∧ C4CexDB.progress 1 2 ≠ none := by
  with_unfolding_all decide

/-- C10: when the level exists in `levels.json` but none of its configured
words matches a `Word` row, both `get_next_adaptive_word` variants return the
`level_complete` result with `mastered = 0` and `total = 0` — the completion
check `mastered_count >= 0.8 * total_words` holds vacuously (`0 >= 0`), so the
`ranked_sorted[0]` indexing that would fail on the empty ranking is never
reached. -/
theorem C10_empty_candidates_safe (db : DB) (user : Nat) (level : String)
    (hne : ¬ (get_words_for_level db level).isEmpty = true)
    (hempty : adaptiveWordObjs db level = []) :
    app_get_next_adaptive_word db user level = .levelComplete 0 0
    ∧ backend_get_next_adaptive_word db user level
        = .levelComplete level 0 0 := by
  constructor
  · unfold app_get_next_adaptive_word
    rw [if_neg hne]
    dsimp only
    rw [hempty]
    norm_num [masteredCountRows, progressRowsFor]
  · unfold backend_get_next_adaptive_word
    rw [if_neg hne]
    dsimp only
    rw [hempty]
    norm_num [masteredCountRows, progressRowsFor, MASTER_THRESHOLD]

/-- Store whose `levels.json` lists a word (`ghost`) that has no `Word` row. -/
def C10DB : DB :=
  { levels := [], level_words := [], words := [],
    progress := fun _ _ => none,
    levels_json := [("L", ["ghost"])] }

theorem C10_witness :
    app_get_next_adaptive_word C10DB 1 "L" = .levelComplete 0 0
    ∧ backend_get_next_adaptive_word C10DB 1 "L"
        = .levelComplete "L" 0 0 :=
  C10_empty_candidates_safe C10DB 1 "L" (by decide) (by decide)

/-- Python `str.lower()` on one character, for the ASCII range the word lists
use. -/
def lowerChar (c : Char) : Char :=
  if 65 ≤ c.toNat ∧ c.toNat ≤ 90 then Char.ofNat (c.toNat + 32) else c

/-- Python `str.lower()` (words are modelled as character lists). -/
def pyLower (s : List Char) : List Char := s.map lowerChar

def isWsp (c : Char) : Bool := c == ' ' || c == '\t' || c == '\n' || c == '\r'

/-- Python `str.strip()`: drop leading and trailing whitespace. -/
def pyStrip (s : List Char) : List Char :=
  ((s.dropWhile isWsp).reverse.dropWhile isWsp).reverse

/-- Length of the common prefix of two lists (a run of equal characters). -/
def commonRun : List Char → List Char → Nat
  | x :: xs, y :: ys => if x = y then commonRun xs ys + 1 else 0
  | _, _ => 0

/-- `difflib.SequenceMatcher.find_longest_match(alo, ahi, blo, bhi)` with no
junk (the inputs here are single words, far below the 200-character autojunk
cutoff, and no `isjunk` is passed): the longest run of equal characters inside
the window, ties resolved to the earliest ending position scanned — `i`
ascending, then `j` ascending, improving only on strictly larger runs. The
Python loop visits only the `j` with `b[j] == a[i]`; visiting every `j` is
equivalent because a non-matching `(i, j)` has run length 0, which never
improves. -/
def find_longest_match (a b : List Char) (alo ahi blo bhi : Nat) :
    Nat × Nat × Nat :=
  (List.range' alo (ahi - alo)).foldl (fun best i =>
    (List.range' blo (bhi - blo)).foldl (fun best j =>
      let k := commonRun (((a.drop alo).take (i + 1 - alo)).reverse)
        (((b.drop blo).take (j + 1 - blo)).reverse)
      if best.2.2 < k then (i + 1 - k, j + 1 - k, k) else best) best)
    (alo, blo, 0)

/-- Total size of `difflib`'s matching blocks on a window: find the longest
match, then recurse on the parts before and on the parts after it
(`get_matching_blocks`). The fuel `(ahi-alo)+(bhi-blo)` strictly bounds the
recursion depth because each recursive window drops the found block. -/
def totalMatched (a b : List Char) : Nat → Nat → Nat → Nat → Nat → Nat
  | 0, _, _, _, _ => 0
  | fuel + 1, alo, ahi, blo, bhi =>
    let r := find_longest_match a b alo ahi blo bhi
    if r.2.2 = 0 then 0
    else r.2.2 + totalMatched a b fuel alo r.1 blo r.2.1
      + totalMatched a b fuel (r.1 + r.2.2) ahi (r.2.1 + r.2.2) bhi

/-- `SequenceMatcher.ratio()`: `2*M / T` where `M` is the total matched size
and `T` the sum of the lengths; `1.0` when both strings are empty. -/
def ratioFrac (a b : List Char) : ℚ :=
  if a.length + b.length = 0 then 1
  else 2 * (totalMatched a b (a.length + b.length) 0 a.length 0 b.length : ℚ)
    / ((a.length + b.length : Nat) : ℚ)

/-- The mistake labels `compare_words` can return (stt_service.py line 97). -/
inductive Mistake where
  | near_miss
  | missing_word
  | extra_pronunciation
  | mispronounced
deriving DecidableEq, Repr

/-- `compare_words(expected, spoken)` (stt_service.py lines 94-120): clean
both words, then classify by the rounded percentage similarity. -/
def compare_words (expected spoken : List Char) : ℚ × Option Mistake :=
  let expected_clean := pyStrip (pyLower expected)
  let spoken_clean := pyStrip (pyLower spoken)
  if expected_clean = spoken_clean then (100, none)
  else if spoken_clean = [] then (0, some Mistake.missing_word)
  else
    let score := round2 (ratioFrac expected_clean spoken_clean * 100)
    if 80 < score then (score, none)
    else if 60 < score then (score, some Mistake.near_miss)
    else if expected_clean.length < spoken_clean.length then
      (score, some Mistake.extra_pronunciation)
    else (score, some Mistake.mispronounced)

set_option maxRecDepth 8000 in
/-- C8 counterexample: at similarity exactly 60 the claimed "similarity below
60 with the observed word longer gives extra_pronunciation; 60-80 gives
near_miss" fails: `compare_words("abc", "abcdefg")` has similarity exactly
60 (matched 3 of 10 characters), which is neither below 60 nor above it, and
the code labels it `extra_pronunciation`. -/
theorem C8_counterexample :
    compare_words "abc".data "abcdefg".data
        = (60, some Mistake.extra_pronunciation)
    ∧ ratioFrac "abc".data "abcdefg".data * 100 = 60 := by
  with_unfolding_all decide

/-- C8 (amended): the exact classification of `compare_words`: identical
cleaned words give `(100, none)`; an empty cleaned observed word gives
`(0, missing_word)`; otherwise the score is the rounded percentage
`SequenceMatcher.ratio`, with no mistake iff the score exceeds 80, `near_miss`
iff it lies in `(60, 80]`, `extra_pronunciation` iff it is at most 60 and the
cleaned observed word is strictly longer than the cleaned expected word, and
`mispronounced` iff it is at most 60 and the observed word is not longer. -/
theorem C8_compare_words_classification (expected spoken : List Char)
    (hne : pyStrip (pyLower expected) ≠ pyStrip (pyLower spoken))
    (hsp : pyStrip (pyLower spoken) ≠ []) :
    (compare_words expected spoken).1
      = round2 (ratioFrac (pyStrip (pyLower expected))
          (pyStrip (pyLower spoken)) * 100)
    ∧ ((compare_words expected spoken).2 = none
        ↔ 80 < (compare_words expected spoken).1)
    ∧ ((compare_words expected spoken).2 = some Mistake.near_miss
        ↔ (60 < (compare_words expected spoken).1
            ∧ (compare_words expected spoken).1 ≤ 80))
    ∧ ((compare_words expected spoken).2 = some Mistake.extra_pronunciation
        ↔ ((compare_words expected spoken).1 ≤ 60
            ∧ (pyStrip (pyLower expected)).length
                < (pyStrip (pyLower spoken)).length))
    ∧ ((compare_words expected spoken).2 = some Mistake.mispronounced
        ↔ ((compare_words expected spoken).1 ≤ 60
            ∧ ¬ (pyStrip (pyLower expected)).length
                < (pyStrip (pyLower spoken)).length)) := by
  unfold compare_words
  rw [if_neg hne, if_neg hsp]
  dsimp only
  by_cases h80 : 80 < round2 (ratioFrac (pyStrip (pyLower expected))
      (pyStrip (pyLower spoken)) * 100)
  · rw [if_pos h80]
    have h60lt : ¬ round2 (ratioFrac (pyStrip (pyLower expected))
        (pyStrip (pyLower spoken)) * 100) ≤ 60 :=
      not_le.mpr (lt_trans (show (60 : ℚ) < 80 by norm_num) h80)
    exact ⟨rfl, by simp [h80], by simp [not_le.mpr h80],
      by simp [h60lt], by simp [h60lt]⟩
  · rw [if_neg h80]
    by_cases h60 : 60 < round2 (ratioFrac (pyStrip (pyLower expected))
        (pyStrip (pyLower spoken)) * 100)
    · rw [if_pos h60]
      exact ⟨rfl, by simp [h80], by simp [h60, not_lt.mp h80],
        by simp [not_le.mpr h60], by simp [not_le.mpr h60]⟩
    · rw [if_neg h60]
      by_cases hlen : (pyStrip (pyLower expected)).length
          < (pyStrip (pyLower spoken)).length
      · rw [if_pos hlen]
        exact ⟨rfl, by simp [h80], by simp [h60],
          by simp [not_lt.mp h60, hlen], by simp [hlen]⟩
      · rw [if_neg hlen]
        exact ⟨rfl, by simp [h80], by simp [h60],
          by simp [hlen], by simp [not_lt.mp h60, hlen]⟩

theorem C8_witness :
    (compare_words "cat".data "cab".data).1
      = round2 (ratioFrac (pyStrip (pyLower "cat".data))
          (pyStrip (pyLower "cab".data)) * 100)
    ∧ ((compare_words "cat".data "cab".data).2 = none
        ↔ 80 < (compare_words "cat".data "cab".data).1)
    ∧ ((compare_words "cat".data "cab".data).2 = some Mistake.near_miss
        ↔ (60 < (compare_words "cat".data "cab".data).1
            ∧ (compare_words "cat".data "cab".data).1 ≤ 80))
    ∧ ((compare_words "cat".data "cab".data).2 = some Mistake.extra_pronunciation
        ↔ ((compare_words "cat".data "cab".data).1 ≤ 60
            ∧ (pyStrip (pyLower "cat".data)).length
                < (pyStrip (pyLower "cab".data)).length))
    ∧ ((compare_words "cat".data "cab".data).2 = some Mistake.mispronounced
        ↔ ((compare_words "cat".data "cab".data).1 ≤ 60
            ∧ ¬ (pyStrip (pyLower "cat".data)).length
                < (pyStrip (pyLower "cab".data)).length)) :=
  C8_compare_words_classification "cat".data "cab".data
    (by with_unfolding_all decide) (by with_unfolding_all decide)

end LearningModule
